import Mathlib

/-!
Verification of the learning-steps delay calculator
(`rslib/src/scheduler/states/steps.rs`, `LearningSteps`).

The Rust code stores the steps as a borrowed slice of `f32` minutes and
computes `u32` second delays.  We embed the step values as rationals
(every value occurring in the specification's scenarios is exactly
representable) and machine integers as `ℕ` with the overflow behaviour
made explicit: saturating operations clamp at `u32::MAX`, and the
`usize → u32` cast (`as u32`) truncates modulo `2^32`.
-/

/-- u32 maximum value, the clamp of the saturating operations. -/
def U32_MAX : ℕ := 2 ^ 32 - 1

/-- `u32::saturating_add`. -/
def satAdd (a b : ℕ) : ℕ := min (a + b) U32_MAX

/-- `u32::saturating_mul`. -/
def satMul (a b : ℕ) : ℕ := min (a * b) U32_MAX

/-- The `as u32` cast from `usize`: integer casts in Rust truncate,
i.e. reduce modulo `2^32`. -/
def usizeToU32 (n : ℕ) : ℕ := n % 2 ^ 32

/-- `const DEFAULT_SECS_IF_MISSING: u32 = 60;` -/
def DEFAULT_SECS_IF_MISSING : ℕ := 60

/-- `fn to_secs(v: f32) -> u32 { (v * 60.0) as u32 }`.
A float-to-integer `as` cast truncates toward zero and saturates at the
target type's bounds; for nonnegative values truncation is the floor,
and negative values clamp to `0` (here via `Int.toNat`). -/
def to_secs (v : ℚ) : ℕ := min (Int.toNat ⌊v * 60⌋) U32_MAX

/-- `fn get_index(self, remaining: u32) -> usize`:
`total.saturating_sub((remaining % 1000) as usize).min(total.saturating_sub(1))`.
`ℕ` subtraction is saturating subtraction. -/
def get_index (steps : List ℚ) (remaining : ℕ) : ℕ :=
  min (steps.length - remaining % 1000) (steps.length - 1)

/-- `fn secs_at_index(&self, index: usize) -> Option<u32>`:
`self.steps.get(index).copied().map(to_secs)`. -/
def secs_at_index (steps : List ℚ) (index : ℕ) : Option ℕ :=
  (steps.get? index).map to_secs

/-- `fn again_delay_secs_learn(&self) -> u32`:
`self.secs_at_index(0).unwrap_or(DEFAULT_SECS_IF_MISSING)`. -/
def again_delay_secs_learn (steps : List ℚ) : ℕ :=
  (secs_at_index steps 0).getD DEFAULT_SECS_IF_MISSING

/-- `fn again_delay_secs_relearn(&self) -> Option<u32>`: `self.secs_at_index(0)`. -/
def again_delay_secs_relearn (steps : List ℚ) : Option ℕ :=
  secs_at_index steps 0

/-- `fn hard_delay_secs(self, remaining: u32) -> Option<u32>`:
looks up the step at the derived index, falling back to the first step,
and at index 0 averages the current step with the next (or with a
simulated next of twice the current, saturating). -/
def hard_delay_secs (steps : List ℚ) (remaining : ℕ) : Option ℕ :=
  let idx := get_index steps remaining
  (match secs_at_index steps idx with
    | some c => some c
    | none => steps.head?.map to_secs).map fun current =>
      if idx = 0 then
        let next := (secs_at_index steps (idx + 1)).getD (satMul current 2)
        satAdd current next / 2
      else current

/-- `fn good_delay_secs(self, remaining: u32) -> Option<u32>`:
`self.secs_at_index(idx + 1)`. -/
def good_delay_secs (steps : List ℚ) (remaining : ℕ) : Option ℕ :=
  secs_at_index steps (get_index steps remaining + 1)

/-- `fn current_delay_secs(self, remaining: u32) -> u32`:
`self.secs_at_index(idx).unwrap_or_default()`. -/
def current_delay_secs (steps : List ℚ) (remaining : ℕ) : ℕ :=
  (secs_at_index steps (get_index steps remaining)).getD 0

/-- `fn remaining_for_good(self, remaining: u32) -> u32`:
`self.steps.len().saturating_sub(idx + 1) as u32`. -/
def remaining_for_good (steps : List ℚ) (remaining : ℕ) : ℕ :=
  usizeToU32 (steps.length - (get_index steps remaining + 1))

/-- `fn remaining_for_failed(self) -> u32`: `self.steps.len() as u32`. -/
def remaining_for_failed (steps : List ℚ) : ℕ :=
  usizeToU32 steps.length

/-- The behaviour of `hardDelay` as the specification words it: no value
on an empty sequence; at derived index 0 the mean, by integer division
by 2, of the current step's seconds and the next step's seconds (a
synthetic next of twice the current seconds when no second step exists),
with saturating sums and doublings; at a non-zero derived index the
current step's seconds unmodified. -/
def hardDelaySpec (steps : List ℚ) (remaining : ℕ) : Option ℕ :=
  match steps with
  | [] => none
  | _ :: _ =>
    let idx := get_index steps remaining
    let current := to_secs (steps.getD idx 0)
    if idx = 0 then
      let next :=
        match steps.get? 1 with
        | some w => to_secs w
        | none => satMul current 2
      some (satAdd current next / 2)
    else some current

/-- The derived index is in bounds whenever the sequence is non-empty. -/
theorem get_index_lt_length (steps : List ℚ) (r : ℕ) (h : steps ≠ []) :
    get_index steps r < steps.length := by
  have hlen : 0 < steps.length := List.length_pos.mpr h
  unfold get_index
  omega

/-- An in-bounds lookup through `secs_at_index` always yields a value. -/
theorem secs_at_index_of_lt (steps : List ℚ) (i : ℕ) (h : i < steps.length) :
    secs_at_index steps i = some (to_secs (steps.getD i 0)) := by
  rw [secs_at_index, List.getD_eq_get?, List.get?_eq_get h]
  rfl

/-- C1: `hard_delay_secs` coincides with the specification's description:
none on an empty sequence; at derived index 0 the integer mean of the
current and next step's seconds (synthetic next of twice the current
when there is no second step), saturating; otherwise the current step's
seconds unmodified. -/
theorem hard_delay_matches_spec (steps : List ℚ) (r : ℕ) :
    hard_delay_secs steps r = hardDelaySpec steps r := by
  cases steps with
  | nil => simp [hard_delay_secs, hardDelaySpec, secs_at_index]
  | cons v rest =>
    have hlt : get_index (v :: rest) r < (v :: rest).length :=
      get_index_lt_length _ r (by simp)
    rw [hard_delay_secs, hardDelaySpec, secs_at_index_of_lt _ _ hlt]
    by_cases h0 : get_index (v :: rest) r = 0
    · cases rest with
      | nil => simp [h0, secs_at_index]
      | cons w ws => simp [h0, secs_at_index]
    · simp [h0]

/-- C2: for a non-empty sequence, `good_delay_secs` returns no value
exactly when the derived index is the last index, and otherwise returns
the seconds of the following step. -/
theorem good_delay_none_iff_last (steps : List ℚ) (r : ℕ) (h : steps ≠ []) :
    (good_delay_secs steps r = none ↔ get_index steps r = steps.length - 1) ∧
    (get_index steps r ≠ steps.length - 1 →
      good_delay_secs steps r = some (to_secs (steps.getD (get_index steps r + 1) 0))) := by
  have hlen : 0 < steps.length := List.length_pos.mpr h
  have hidx : get_index steps r < steps.length := get_index_lt_length steps r h
  constructor
  · rw [good_delay_secs, secs_at_index, Option.map_eq_none', List.get?_eq_none]
    omega
  · intro hne
    have hlt : get_index steps r + 1 < steps.length := by omega
    rw [good_delay_secs, secs_at_index_of_lt _ _ hlt]

/-- C2 witness at a concrete input. -/
theorem good_delay_none_iff_last_witness :
    (good_delay_secs [(1 : ℚ), 10] 1 = none ↔
      get_index [(1 : ℚ), 10] 1 = ([(1 : ℚ), 10].length) - 1) ∧
    (get_index [(1 : ℚ), 10] 1 ≠ ([(1 : ℚ), 10].length) - 1 →
      good_delay_secs [(1 : ℚ), 10] 1 =
        some (to_secs ([(1 : ℚ), 10].getD (get_index [(1 : ℚ), 10] 1 + 1) 0))) :=
  good_delay_none_iff_last [(1 : ℚ), 10] 1 (by simp)

/-- C3: for a non-empty sequence the derived index is
`min (max 0 (len - remaining % 1000)) (len - 1)` (stated over ℤ so the
flooring at zero is explicit), hence always at most `len - 1`. -/
theorem get_index_clamped_formula (steps : List ℚ) (r : ℕ) (h : steps ≠ []) :
    (get_index steps r : ℤ) =
      min (max 0 ((steps.length : ℤ) - (r % 1000 : ℕ))) ((steps.length : ℤ) - 1) ∧
    get_index steps r ≤ steps.length - 1 := by
  have hlen : 0 < steps.length := List.length_pos.mpr h
  unfold get_index
  constructor
  · simp only [Nat.cast_min]
    omega
  · omega

/-- C3 witness at a concrete input. -/
theorem get_index_clamped_formula_witness :
    (get_index [(1 : ℚ), 10, 100] 2 : ℤ) =
      min (max 0 (([(1 : ℚ), 10, 100].length : ℤ) - ((2 : ℕ) % 1000 : ℕ)))
        (([(1 : ℚ), 10, 100].length : ℤ) - 1) ∧
    get_index [(1 : ℚ), 10, 100] 2 ≤ ([(1 : ℚ), 10, 100].length) - 1 :=
  get_index_clamped_formula [(1 : ℚ), 10, 100] 2 (by simp)

/-- On a whole number of minutes, `to_secs` is multiplication by 60
clamped at `u32::MAX`. -/
theorem to_secs_natCast (n : ℕ) : to_secs (n : ℚ) = min (n * 60) U32_MAX := by
  unfold to_secs
  rw [show ((n : ℚ) * 60) = ((n * 60 : ℕ) : ℚ) by push_cast; ring, Int.floor_natCast]
  omega

theorem to_secs_one : to_secs (1 : ℚ) = 60 := by
  rw [show (1 : ℚ) = ((1 : ℕ) : ℚ) by norm_num, to_secs_natCast]
  norm_num [U32_MAX]

theorem to_secs_ten : to_secs (10 : ℚ) = 600 := by
  rw [show (10 : ℚ) = ((10 : ℕ) : ℚ) by norm_num, to_secs_natCast]
  norm_num [U32_MAX]

theorem to_secs_hundred : to_secs (100 : ℚ) = 6000 := by
  rw [show (100 : ℚ) = ((100 : ℕ) : ℚ) by norm_num, to_secs_natCast]
  norm_num [U32_MAX]

/-- C4: `again_delay_secs_learn` returns the first step's seconds and 60
on an empty sequence (in particular 600 on `[10.0]`);
`again_delay_secs_relearn` returns the first step's seconds and no value
on an empty sequence. -/
theorem again_delay_defaults (steps : List ℚ) :
    (again_delay_secs_learn steps =
      match steps with
      | [] => 60
      | v :: _ => to_secs v) ∧
    (again_delay_secs_relearn steps =
      match steps with
      | [] => none
      | v :: _ => some (to_secs v)) ∧
    again_delay_secs_learn [(10 : ℚ)] = 600 ∧
    again_delay_secs_learn ([] : List ℚ) = 60 := by
  refine ⟨?_, ?_, ?_, rfl⟩
  · cases steps <;>
      simp [again_delay_secs_learn, secs_at_index, DEFAULT_SECS_IF_MISSING]
  · cases steps <;> simp [again_delay_secs_relearn, secs_at_index]
  · simp [again_delay_secs_learn, secs_at_index, to_secs_ten]

/-- C5: the six concrete scenarios of the specification, matching the
source's test table `delay_secs`. -/
theorem delay_secs_scenarios :
    (again_delay_secs_learn [(10 : ℚ)] = 600 ∧
      hard_delay_secs [(10 : ℚ)] 1 = some 900 ∧
      good_delay_secs [(10 : ℚ)] 1 = none) ∧
    (again_delay_secs_learn [(1 : ℚ), 10] = 60 ∧
      hard_delay_secs [(1 : ℚ), 10] 2 = some 330 ∧
      good_delay_secs [(1 : ℚ), 10] 2 = some 600) ∧
    (again_delay_secs_learn [(1 : ℚ), 10] = 60 ∧
      hard_delay_secs [(1 : ℚ), 10] 1 = some 600 ∧
      good_delay_secs [(1 : ℚ), 10] 1 = none) ∧
    (again_delay_secs_learn [(1 : ℚ), 10, 100] = 60 ∧
      hard_delay_secs [(1 : ℚ), 10, 100] 3 = some 330 ∧
      good_delay_secs [(1 : ℚ), 10, 100] 3 = some 600) ∧
    (again_delay_secs_learn [(1 : ℚ), 10, 100] = 60 ∧
      hard_delay_secs [(1 : ℚ), 10, 100] 2 = some 600 ∧
      good_delay_secs [(1 : ℚ), 10, 100] 2 = some 6000) ∧
    (again_delay_secs_learn [(1 : ℚ), 10, 100] = 60 ∧
      hard_delay_secs [(1 : ℚ), 10, 100] 1 = some 6000 ∧
      good_delay_secs [(1 : ℚ), 10, 100] 1 = none) := by
  refine ⟨⟨?_, ?_, ?_⟩, ⟨?_, ?_, ?_⟩, ⟨?_, ?_, ?_⟩, ⟨?_, ?_, ?_⟩, ⟨?_, ?_, ?_⟩,
    ?_, ?_, ?_⟩ <;>
    norm_num [again_delay_secs_learn, hard_delay_secs, good_delay_secs, get_index,
      secs_at_index, DEFAULT_SECS_IF_MISSING, to_secs_one, to_secs_ten,
      to_secs_hundred, satAdd, satMul, U32_MAX]

/-- C6: all remaining-dependent queries depend only on
`remaining % 1000`. -/
theorem delays_depend_on_mod1000 (steps : List ℚ) (r₁ r₂ : ℕ)
    (h : r₁ % 1000 = r₂ % 1000) :
    get_index steps r₁ = get_index steps r₂ ∧
    hard_delay_secs steps r₁ = hard_delay_secs steps r₂ ∧
    good_delay_secs steps r₁ = good_delay_secs steps r₂ ∧
    current_delay_secs steps r₁ = current_delay_secs steps r₂ ∧
    remaining_for_good steps r₁ = remaining_for_good steps r₂ := by
  have hidx : get_index steps r₁ = get_index steps r₂ := by
    rw [get_index, get_index, h]
  exact ⟨hidx, by rw [hard_delay_secs, hard_delay_secs, hidx],
    by rw [good_delay_secs, good_delay_secs, hidx],
    by rw [current_delay_secs, current_delay_secs, hidx],
    by rw [remaining_for_good, remaining_for_good, hidx]⟩

/-- C6 witness: counters 1 and 1001 agree on every query. -/
theorem delays_depend_on_mod1000_witness :
    get_index [(1 : ℚ), 10] 1 = get_index [(1 : ℚ), 10] 1001 ∧
    hard_delay_secs [(1 : ℚ), 10] 1 = hard_delay_secs [(1 : ℚ), 10] 1001 ∧
    good_delay_secs [(1 : ℚ), 10] 1 = good_delay_secs [(1 : ℚ), 10] 1001 ∧
    current_delay_secs [(1 : ℚ), 10] 1 = current_delay_secs [(1 : ℚ), 10] 1001 ∧
    remaining_for_good [(1 : ℚ), 10] 1 = remaining_for_good [(1 : ℚ), 10] 1001 :=
  delays_depend_on_mod1000 [(1 : ℚ), 10] 1 1001 (by norm_num)

/-- C7 counterexample: the `as u32` cast wraps, so on a sequence of
`2^32` steps `remaining_for_failed` is `0`, not the length. -/
theorem remaining_updates_wrap_cx :
    remaining_for_failed (List.replicate (2 ^ 32) (0 : ℚ)) ≠
      (List.replicate (2 ^ 32) (0 : ℚ)).length := by
  rw [remaining_for_failed, usizeToU32, List.length_replicate, Nat.mod_self]
  norm_num

/-- C7 (amended): for sequences of fewer than `2^32` steps,
`remaining_for_good` is `len - (idx + 1)` floored at zero (`ℕ`
subtraction) and `remaining_for_failed` is the step count. -/
theorem remaining_updates_bounded (steps : List ℚ) (r : ℕ)
    (h : steps.length < 2 ^ 32) :
    remaining_for_good steps r = steps.length - (get_index steps r + 1) ∧
    remaining_for_failed steps = steps.length := by
  constructor
  · rw [remaining_for_good, usizeToU32]
    exact Nat.mod_eq_of_lt (by omega)
  · rw [remaining_for_failed, usizeToU32]
    exact Nat.mod_eq_of_lt h

/-- C7 witness at a concrete input. -/
theorem remaining_updates_bounded_witness :
    remaining_for_good [(1 : ℚ), 10] 2 =
      ([(1 : ℚ), 10].length) - (get_index [(1 : ℚ), 10] 2 + 1) ∧
    remaining_for_failed [(1 : ℚ), 10] = ([(1 : ℚ), 10].length) :=
  remaining_updates_bounded [(1 : ℚ), 10] 2 (by norm_num)

/-- After a failing rating the derived index returns to step 0,
for non-empty sequences of fewer than 1000 steps. -/
theorem get_index_of_failed (steps : List ℚ) (h1 : steps ≠ [])
    (h2 : steps.length < 1000) :
    get_index steps (remaining_for_failed steps) = 0 := by
  have hlen : 0 < steps.length := List.length_pos.mpr h1
  rw [remaining_for_failed, usizeToU32,
    Nat.mod_eq_of_lt (show steps.length < 2 ^ 32 by omega), get_index,
    Nat.mod_eq_of_lt h2]
  omega

/-- After a Good rating below the last step the derived index advances
by one, for sequences of fewer than 1000 steps. -/
theorem get_index_of_good (steps : List ℚ) (r : ℕ) (h2 : steps.length < 1000)
    (h3 : get_index steps r + 1 < steps.length) :
    get_index steps (remaining_for_good steps r) = get_index steps r + 1 := by
  rw [remaining_for_good, usizeToU32,
    Nat.mod_eq_of_lt (show steps.length - (get_index steps r + 1) < 2 ^ 32 by omega)]
  generalize hk : get_index steps r = k at h3 ⊢
  rw [get_index, Nat.mod_eq_of_lt (show steps.length - (k + 1) < 1000 by omega)]
  omega

/-- C8 counterexample input: a sequence of exactly 1000 steps. -/
def stepsThousand : List ℚ := List.replicate 1000 0

/-- C8 counterexample: with 1000 steps, the counter produced by
`remaining_for_failed` is stripped to 0 by the modulo, so the derived
index lands on the last step instead of step 0. -/
theorem state_machine_cx :
    stepsThousand ≠ [] ∧
    get_index stepsThousand (remaining_for_failed stepsThousand) ≠ 0 := by
  have hlen : stepsThousand.length = 1000 := by
    rw [stepsThousand, List.length_replicate]
  constructor
  · intro h
    rw [h] at hlen
    simp at hlen
  · rw [remaining_for_failed, usizeToU32, hlen, get_index, hlen]
    norm_num

/-- Good below the last step advances the derived index by one, for
sequences of any length: the value `remaining_for_good` produces is
always below 1000, so neither the `as u32` cast nor the modulo-1000
stripping distorts it. -/
theorem get_index_of_good_all (steps : List ℚ) (r : ℕ)
    (h3 : get_index steps r + 1 < steps.length) :
    get_index steps (remaining_for_good steps r) = get_index steps r + 1 := by
  have hm : r % 1000 < 1000 := Nat.mod_lt _ (by norm_num)
  have hk1 : steps.length - (get_index steps r + 1) < 1000 := by
    rw [get_index]
    omega
  rw [remaining_for_good, usizeToU32,
    Nat.mod_eq_of_lt (lt_trans hk1 (by norm_num))]
  generalize hK : get_index steps r = k at h3 hk1 ⊢
  rw [get_index, Nat.mod_eq_of_lt hk1]
  omega

/-- C8 (amended): for every non-empty step sequence the counter updates
realise the state machine, with the fail transition requiring fewer
than 1000 steps: when the sequence has fewer than 1000 steps, failing
returns to step 0; Good below the last step advances the index by one
(any length); and Good at the last step yields no delay, the
graduation signal (any length). -/
theorem state_machine_updates (steps : List ℚ) (r : ℕ) (h1 : steps ≠ []) :
    (steps.length < 1000 → get_index steps (remaining_for_failed steps) = 0) ∧
    (get_index steps r + 1 < steps.length →
      get_index steps (remaining_for_good steps r) = get_index steps r + 1) ∧
    (get_index steps r = steps.length - 1 → good_delay_secs steps r = none) := by
  have hlen : 0 < steps.length := List.length_pos.mpr h1
  refine ⟨fun h2 => get_index_of_failed steps h1 h2,
    fun h3 => get_index_of_good_all steps r h3, fun hlast => ?_⟩
  rw [good_delay_secs, secs_at_index, Option.map_eq_none', List.get?_eq_none]
  omega

/-- C8 witness: on `[1.0, 10.0]` failing lands on step 0, Good from
step 0 lands on step 1, Good at the last step graduates. -/
theorem state_machine_updates_witness :
    get_index [(1 : ℚ), 10] (remaining_for_failed [(1 : ℚ), 10]) = 0 ∧
    get_index [(1 : ℚ), 10] (remaining_for_good [(1 : ℚ), 10] 2) =
      get_index [(1 : ℚ), 10] 2 + 1 ∧
    good_delay_secs [(1 : ℚ), 10] 1 = none := by
  have h2 := state_machine_updates [(1 : ℚ), 10] 2 (by simp)
  have h1 := state_machine_updates [(1 : ℚ), 10] 1 (by simp)
  refine ⟨h2.1 ?_, h2.2.1 ?_, h1.2.2 ?_⟩ <;>
    norm_num [get_index]

/-- C9: every operation is total: on a non-empty sequence the derived
index is in bounds and the lookup there succeeds (so no access is out
of bounds), and on the empty sequence every operation returns its
defined fallback rather than failing. -/
theorem totality_and_bounds (steps : List ℚ) (r : ℕ) :
    (steps = [] ∨ get_index steps r < steps.length) ∧
    (steps = [] ∨ (secs_at_index steps (get_index steps r)).isSome = true) ∧
    again_delay_secs_learn ([] : List ℚ) = 60 ∧
    again_delay_secs_relearn ([] : List ℚ) = none ∧
    hard_delay_secs [] r = none ∧
    good_delay_secs [] r = none ∧
    current_delay_secs [] r = 0 ∧
    remaining_for_good [] r = 0 ∧
    remaining_for_failed ([] : List ℚ) = 0 := by
  refine ⟨?_, ?_, rfl, rfl, ?_, ?_, ?_, ?_, rfl⟩
  · by_cases h : steps = []
    · exact Or.inl h
    · exact Or.inr (get_index_lt_length steps r h)
  · by_cases h : steps = []
    · exact Or.inl h
    · refine Or.inr ?_
      rw [secs_at_index_of_lt _ _ (get_index_lt_length steps r h)]
      rfl
  · simp [hard_delay_secs, secs_at_index]
  · simp [good_delay_secs, secs_at_index]
  · simp [current_delay_secs, secs_at_index]
  · simp [remaining_for_good, usizeToU32]

/-- C10: for non-empty sequences of fewer than 1000 steps the
update-then-reindex round trip is exact: the counter after failing
derives index 0, and the counter after Good below the last step derives
the successor index. -/
theorem roundtrip_reindex (steps : List ℚ) (r : ℕ) (h1 : steps ≠ [])
    (h2 : steps.length < 1000) :
    get_index steps (remaining_for_failed steps) = 0 ∧
    (get_index steps r + 1 < steps.length →
      get_index steps (remaining_for_good steps r) = get_index steps r + 1) :=
  ⟨get_index_of_failed steps h1 h2, fun h3 => get_index_of_good steps r h2 h3⟩

/-- C10 witness: on `[1.0, 10.0, 100.0]` with remaining 3 (index 0),
failing lands on step 0 and Good advances to step 1. -/
theorem roundtrip_reindex_witness :
    get_index [(1 : ℚ), 10, 100] (remaining_for_failed [(1 : ℚ), 10, 100]) = 0 ∧
    get_index [(1 : ℚ), 10, 100] (remaining_for_good [(1 : ℚ), 10, 100] 3) =
      get_index [(1 : ℚ), 10, 100] 3 + 1 := by
  have h := roundtrip_reindex [(1 : ℚ), 10, 100] 3 (by simp) (by norm_num)
  exact ⟨h.1, h.2 (by norm_num [get_index])⟩
